import Mathlib

/-!
Verification of the position-navigation and branch-management core of the
chessAI repository (a chess game viewer/explainer).

The embedding covers:
* `shared/types.ts` — the `ChessMove`, `GameMetadata` and `GameState` records;
* `client/src/lib/chessUtils.ts` — `navigateToPosition` (replay with abort on
  the first failing move) and `getCurrentMoveDisplay`;
* `client/src/pages/Home.tsx` (the version with temporary branches) —
  `getFenAtIndex` (replay that skips failing moves), `handleMove`,
  `handleTemporaryBranchChange`, `handlePrevMove`, `handleNextMove` and
  `handleMoveClick`, modelled as functions on the component state
  (`gameState`, `temporaryBranch`, `displayFen`), with each React `setX`
  call read as a sequential state update, and the settling `useEffect` that
  re-derives `displayFen` after every `gameState`/`temporaryBranch` change
  modelled by `settleDisplayFen` (the program's settled display after a
  handler `h` is `settleDisplayFen E (h ...)`).

The chess.js rules engine is external to the repository; it is abstracted as
a `RulesEngine` record whose `moveFromTo`/`moveSan` return `none` exactly when
the corresponding `chess.move` call fails (throws or returns a null result —
both are treated uniformly by the calling code under scrutiny), and whose
`loadPgnFen` gives the FEN of a `Chess` instance after `loadPgn`.  All
theorems about control flow are proved for an arbitrary engine; concrete toy
engines are used only to evaluate witnesses and counterexamples.
-/

namespace ChessAI

/-- Chess move record, from `shared/types.ts` (`ChessMove`).  The TypeScript
field `from` is a Lean keyword, so it is rendered `fromSq` (and `to` as
`toSq`).  Optional fields are `Option String`. -/
structure ChessMove where
  color : String
  piece : String
  fromSq : String
  toSq : String
  san : String
  flags : Option String := none
  promotion : Option String := none
  captured : Option String := none
deriving Repr, DecidableEq

/-- Game metadata, from `shared/types.ts` (`GameMetadata`); only the named
optional fields are modelled. -/
structure GameMetadata where
  event : Option String := none
  site : Option String := none
  date : Option String := none
  round : Option String := none
  white : Option String := none
  black : Option String := none
  result : Option String := none
deriving Repr, DecidableEq

/-- Game state, from `shared/types.ts` (`GameState`).  `currentMoveIndex` is a
JavaScript number used as an integer index (-1 = start position). -/
structure GameState where
  pgn : String
  fen : String
  metadata : GameMetadata
  history : List ChessMove
  currentMoveIndex : Int
deriving Repr, DecidableEq

/-- The FEN of `new Chess()` / `chess.reset()` — the standard initial
position.  The same literal appears in the source as `defaultGameState.fen`
in `Home.tsx`. -/
def startingFen : String :=
  "rnbqkbnr/pppppppp/8/8/8/8/PPPPPPPP/RNBQKBNR w KQkq - 0 1"

/-- Abstract interface to the chess.js rules engine (an external library, not
repository code).  `moveFromTo fen f t p` is `chess.move({from, to, promotion})`
on a `Chess` loaded with `fen`: `some newFen` on success, `none` when the move
is rejected.  `moveSan` is the SAN-string overload of `chess.move`.
`loadPgnFen pgn` is `chess.fen()` after `chess.loadPgn(pgn)`. -/
structure RulesEngine where
  moveFromTo : String → String → String → Option String → Option String
  moveSan : String → String → Option String
  loadPgnFen : String → String

/-- JavaScript array indexing `a[i]` with a possibly negative integer index:
`undefined` (i.e. `none`) whenever `i` is negative or past the end. -/
def listGetInt {α : Type} (l : List α) (i : Int) : Option α :=
  if 0 ≤ i then l.get? i.toNat else none

/-- The replay loop of `navigateToPosition` (chessUtils.ts lines 63-78):
apply each move by `{from, to, promotion}`; on the first failure the `catch`
block executes `break`, abandoning the rest of the moves and keeping the
position reached so far. -/
def replayBreak (E : RulesEngine) : String → List ChessMove → String
  | fen, [] => fen
  | fen, m :: rest =>
    match E.moveFromTo fen m.fromSq m.toSq m.promotion with
    | some fen2 => replayBreak E fen2 rest
    | none => fen

/-- Total-success replay: `some fen` when every move of the list applies in
sequence (the value is the final position), `none` as soon as one is
rejected.  Used to phrase hypotheses about failure-free prefixes. -/
def replayAllOk (E : RulesEngine) : String → List ChessMove → Option String
  | fen, [] => some fen
  | fen, m :: rest =>
    match E.moveFromTo fen m.fromSq m.toSq m.promotion with
    | some fen2 => replayAllOk E fen2 rest
    | none => none

/-- `navigateToPosition` from `client/src/lib/chessUtils.ts`.  A fresh
`Chess` is loaded with the state's PGN; at `moveIndex = -1` the function
returns that instance's FEN (the position after the whole PGN, since
`loadPgn` plays the game out).  Otherwise `moves[moveIndex]` is looked up:
`undefined` means the invalid index is rejected and the state returned
unchanged; else the engine is reset and moves `0..moveIndex` are replayed
with `replayBreak`. -/
def navigateToPosition (E : RulesEngine) (gameState : GameState) (moveIndex : Int) :
    GameState :=
  if moveIndex = -1 then
    { gameState with fen := E.loadPgnFen gameState.pgn, currentMoveIndex := -1 }
  else
    match listGetInt gameState.history moveIndex with
    | none => gameState
    | some _ =>
      let fen := replayBreak E startingFen (gameState.history.take (moveIndex.toNat + 1))
      { gameState with fen := fen, currentMoveIndex := moveIndex }

/-- `getCurrentMoveDisplay` from `client/src/lib/chessUtils.ts`.
`Math.floor(i / 2)` is integer floor division (`Int.fdiv`), the JavaScript
remainder `%` truncates toward zero (`Int.tmod`), and
`Math.ceil(len / 2) = (len + 1) / 2` on naturals. -/
def getCurrentMoveDisplay (gameState : GameState) : String :=
  let fullMoveNumber : Int := Int.fdiv gameState.currentMoveIndex 2 + 1
  let side : String := if Int.tmod gameState.currentMoveIndex 2 = 0 then "Black" else "White"
  let totalMoves : Nat := (gameState.history.length + 1) / 2
  s!"Move {fullMoveNumber} ({side} to move) of {totalMoves}"

/-- The `move.promotion || undefined` argument normalization in
`getFenAtIndex`: an empty-string promotion is falsy and becomes `undefined`. -/
def promotionArg (p : Option String) : Option String :=
  match p with
  | some s => if s = "" then none else some s
  | none => none

/-- One iteration of the replay loop in `getFenAtIndex` (Home.tsx): when
`move.from` and `move.to` are truthy (non-empty) the move is applied by
coordinates; otherwise, when `move.san` is truthy, by SAN; a rejected move
(null result or exception) leaves the position unchanged and the loop
continues. -/
def replaySkipStep (E : RulesEngine) (fen : String) (m : ChessMove) : String :=
  if m.fromSq ≠ "" ∧ m.toSq ≠ "" then
    match E.moveFromTo fen m.fromSq m.toSq (promotionArg m.promotion) with
    | some fen2 => fen2
    | none => fen
  else if m.san ≠ "" then
    match E.moveSan fen m.san with
    | some fen2 => fen2
    | none => fen
  else fen

/-- The full skip-and-continue replay of `getFenAtIndex`. -/
def replaySkip (E : RulesEngine) (fen : String) (l : List ChessMove) : String :=
  l.foldl (replaySkipStep E) fen

/-- `getFenAtIndex` from `client/src/pages/Home.tsx`: a fresh `Chess` (the
start position) for `index < 0`; otherwise moves `0 .. min(index, len-1)` are
replayed with the skipping loop. -/
def getFenAtIndex (E : RulesEngine) (state : GameState) (index : Int) : String :=
  if index < 0 then startingFen
  else
    let bound : Int := min index ((state.history.length : Int) - 1)
    replaySkip E startingFen (state.history.take (bound.toNat + 1))

/-- One replay step addressed by (origin, destination, promotion): apply the
move via the rules engine; a rejected move leaves the position unchanged
(skip and continue). -/
def applyStep (E : RulesEngine) (fen : String) (m : ChessMove) : String :=
  match E.moveFromTo fen m.fromSq m.toSq m.promotion with
  | some fen2 => fen2
  | none => fen

/-- Modelled from the spec (section 4.1, Position Reconstructor):
`computePosition(sequence, index)` starts from the sequence's starting
position and, for `i` from 0 to `index` inclusive, applies `moves[i]` using
(origin, destination, promotion) via the rules engine, skipping a rejected
move and continuing; `index = -1` is the start position. -/
def computePosition (E : RulesEngine) (sequence : List ChessMove) (index : Int) : String :=
  if index = -1 then startingFen
  else (sequence.take (index.toNat + 1)).foldl (applyStep E) startingFen

/-- Temporary exploration branch, from the `temporaryBranch` React state of
`Home.tsx`. -/
structure TemporaryBranch where
  baseMoveIndex : Int
  moves : List ChessMove
  fen : String
deriving Repr, DecidableEq

/-- The state of the `Home` component relevant to navigation: the `gameState`,
`temporaryBranch` and `displayFen` React state cells. -/
structure HomeState where
  gameState : GameState
  temporaryBranch : Option TemporaryBranch
  displayFen : String
deriving Repr, DecidableEq

/-- `handleTemporaryBranchChange` from `Home.tsx`: install the branch (or
clear it) and set the display FEN to the branch's cached FEN, or, when
clearing, to the main-line position at the current index. -/
def handleTemporaryBranchChange (E : RulesEngine) (s : HomeState)
    (branch : Option TemporaryBranch) : HomeState :=
  match branch with
  | some b => { s with temporaryBranch := some b, displayFen := b.fen }
  | none =>
    { s with temporaryBranch := none,
             displayFen := getFenAtIndex E s.gameState s.gameState.currentMoveIndex }

/-- `handleMove` from `Home.tsx`.  The handler first plays the move on a
`Chess` loaded with `displayFen`; if that `load`/`move` call throws (the
board normally prevents this), the handler aborts with no state change,
modelled as `none`.  On success: extend an active branch; else, off the
main-line tip, create a one-move branch; else append to the main line. -/
def handleMove (E : RulesEngine) (s : HomeState) (move : ChessMove) : Option HomeState :=
  match E.moveFromTo s.displayFen move.fromSq move.toSq move.promotion with
  | none => none
  | some newFen =>
    match s.temporaryBranch with
    | some br =>
      some (handleTemporaryBranchChange E s
        (some { br with moves := br.moves ++ [move], fen := newFen }))
    | none =>
      if s.gameState.currentMoveIndex < (s.gameState.history.length : Int) - 1 then
        some (handleTemporaryBranchChange E s
          (some { baseMoveIndex := s.gameState.currentMoveIndex
                  moves := [move]
                  fen := newFen }))
      else
        some { s with gameState :=
          { s.gameState with
              history := s.gameState.history ++ [move]
              currentMoveIndex := s.gameState.currentMoveIndex + 1
              fen := newFen } }

/-- A sequence of `handleMove` calls (a user playing several moves in a row);
`none` as soon as one of them throws. -/
def handleMoves (E : RulesEngine) (s : HomeState) : List ChessMove → Option HomeState
  | [] => some s
  | m :: rest =>
    match handleMove E s m with
    | none => none
    | some s2 => handleMoves E s2 rest

/-- `handlePrevMove` from `Home.tsx`.  With an active branch whose base index
is exactly one below the current index: clear the branch and show the
main-line FEN at the base index (note: `gameState`, and in particular
`currentMoveIndex`, is not touched in this case).  Otherwise decrement the
index (floored at -1), navigate the game state there, and recompute the
display FEN.  The `displayFen` this handler assigns is transient: the
component's settling effect (`settleDisplayFen` below) re-derives it from
the updated `(gameState, temporaryBranch)` pair afterwards. -/
def handlePrevMove (E : RulesEngine) (s : HomeState) : HomeState :=
  match s.temporaryBranch with
  | some br =>
    if s.gameState.currentMoveIndex = br.baseMoveIndex + 1 then
      { s with temporaryBranch := none,
               displayFen := getFenAtIndex E s.gameState br.baseMoveIndex }
    else
      let newIndex := max (-1) (s.gameState.currentMoveIndex - 1)
      let newState := navigateToPosition E s.gameState newIndex
      { s with gameState := newState, displayFen := getFenAtIndex E newState newIndex }
  | none =>
    let newIndex := max (-1) (s.gameState.currentMoveIndex - 1)
    let newState := navigateToPosition E s.gameState newIndex
    { s with gameState := newState, displayFen := getFenAtIndex E newState newIndex }

/-- `handleNextMove` from `Home.tsx`: increment the index, capped at the
main-line tip, navigate, recompute the display FEN.  The branch cell is not
touched. -/
def handleNextMove (E : RulesEngine) (s : HomeState) : HomeState :=
  let newIndex := min ((s.gameState.history.length : Int) - 1)
                      (s.gameState.currentMoveIndex + 1)
  let newState := navigateToPosition E s.gameState newIndex
  { s with gameState := newState, displayFen := getFenAtIndex E newState newIndex }

/-- `handleMoveClick` from `Home.tsx` (a click on move `index` in the move
list).  With an active branch: a click at or before the base index navigates
the main line but keeps the branch; a click strictly between the base index
and the main-line length clears the branch and navigates; otherwise the
general case runs, which clears the branch only when `index` is below the
main-line length.  Without a branch the general case just navigates.  As
with `handlePrevMove`, the assigned `displayFen` is transient until the
settling effect (`settleDisplayFen`) runs. -/
def handleMoveClick (E : RulesEngine) (s : HomeState) (index : Int) : HomeState :=
  match s.temporaryBranch with
  | some br =>
    if index ≤ br.baseMoveIndex then
      let newState := navigateToPosition E s.gameState index
      { s with gameState := newState, displayFen := getFenAtIndex E newState index }
    else if br.baseMoveIndex < index ∧ index < (s.gameState.history.length : Int) then
      let newState := navigateToPosition E s.gameState index
      { s with temporaryBranch := none, gameState := newState,
               displayFen := getFenAtIndex E newState index }
    else
      let cleared : Option TemporaryBranch :=
        if index < (s.gameState.history.length : Int) then none else s.temporaryBranch
      let newState := navigateToPosition E s.gameState index
      { s with temporaryBranch := cleared, gameState := newState,
               displayFen := getFenAtIndex E newState index }
  | none =>
    let newState := navigateToPosition E s.gameState index
    { s with gameState := newState, displayFen := getFenAtIndex E newState index }

/-- The settling `useEffect` of `Home.tsx` (lines 421-428 of the branch
version): whenever `gameState` or `temporaryBranch` changes, `displayFen` is
re-derived — the branch's cached FEN while a branch is active, otherwise the
main-line reconstruction at the current index.  This runs after each handler
above, overwriting whatever `displayFen` the handler assigned, so the
program's settled display after a transition `h` is
`settleDisplayFen E (h ...)`. -/
def settleDisplayFen (E : RulesEngine) (s : HomeState) : HomeState :=
  match s.temporaryBranch with
  | some br => { s with displayFen := br.fen }
  | none =>
    { s with displayFen := getFenAtIndex E s.gameState s.gameState.currentMoveIndex }

/-! ### Concrete fixtures

A toy rules engine and small game states, used only to evaluate witnesses and
counterexamples on concrete inputs.  The toy engine rejects exactly the moves
whose origin square is the marker `"xx"`, and records successful moves by
appending them to the FEN string, so that distinct replays give distinct
positions. -/

def cexEngine : RulesEngine where
  moveFromTo := fun fen f t _p => if f = "xx" then none else some (fen ++ "/" ++ f ++ t)
  moveSan := fun fen s => some (fen ++ "/san:" ++ s)
  loadPgnFen := fun pgn => "pgnEnd:" ++ pgn

def mvE2E4 : ChessMove :=
  { color := "w", piece := "p", fromSq := "e2", toSq := "e4", san := "e4" }

def mvE7E5 : ChessMove :=
  { color := "b", piece := "p", fromSq := "e7", toSq := "e5", san := "e5" }

def mvG1F3 : ChessMove :=
  { color := "w", piece := "n", fromSq := "g1", toSq := "f3", san := "Nf3" }

def mvD7D5 : ChessMove :=
  { color := "b", piece := "p", fromSq := "d7", toSq := "d5", san := "d5" }

/-- A corrupt history entry: the toy engine rejects it. -/
def mvBad : ChessMove :=
  { color := "w", piece := "p", fromSq := "xx", toSq := "x1", san := "bad" }

/-- A game state whose stored history starts with a move the engine rejects,
followed by one it accepts. -/
def cexState : GameState :=
  { pgn := "1. e4", fen := "somefen", metadata := {},
    history := [mvBad, mvE2E4], currentMoveIndex := 1 }

/-- A five-move main line. -/
def hist5 : List ChessMove := [mvE2E4, mvE7E5, mvG1F3, mvE2E4, mvE7E5]

/-- A branch diverging after main-line index 2. -/
def branchAt2 : TemporaryBranch :=
  { baseMoveIndex := 2, moves := [mvG1F3], fen := "branchfen" }

/-- Component state: five-move main line, active branch with base index 2,
current index at base + 1. -/
def c5State : HomeState :=
  { gameState := { pgn := "p", fen := "f", metadata := {},
                   history := hist5, currentMoveIndex := 3 },
    temporaryBranch := some branchAt2, displayFen := "branchfen" }

/-! ### Auxiliary lemmas -/

/-- The well-formedness every `chess.js` verbose-history move enjoys: origin
and destination squares are non-empty strings and the optional promotion, if
present, is non-empty. -/
def wellFormedMove (m : ChessMove) : Prop :=
  m.fromSq ≠ "" ∧ m.toSq ≠ "" ∧ m.promotion ≠ some ""

instance (m : ChessMove) : Decidable (wellFormedMove m) := by
  unfold wellFormedMove; infer_instance

lemma promotionArg_eq_self {p : Option String} (h : p ≠ some "") : promotionArg p = p := by
  cases p with
  | none => rfl
  | some s =>
    simp only [promotionArg]
    rw [if_neg fun hs => h (by rw [hs])]

lemma listGetInt_eq_none_of_out {α : Type} (l : List α) (i : Int)
    (h : i < -1 ∨ (l.length : Int) ≤ i) : listGetInt l i = none := by
  unfold listGetInt
  rcases h with h | h
  · rw [if_neg (by omega)]
  · rw [if_pos (by omega)]
    exact List.get?_eq_none.mpr (by omega)

lemma listGetInt_eq_some_of_valid {α : Type} (l : List α) (i : Int)
    (h0 : 0 ≤ i) (hlt : i < (l.length : Int)) : ∃ a, listGetInt l i = some a := by
  unfold listGetInt
  rw [if_pos h0]
  have hl : i.toNat < l.length := by omega
  exact ⟨l.get ⟨i.toNat, hl⟩, List.get?_eq_get hl⟩

lemma navigateToPosition_history (E : RulesEngine) (gs : GameState) (i : Int) :
    (navigateToPosition E gs i).history = gs.history := by
  unfold navigateToPosition
  split
  · rfl
  · split <;> rfl

lemma navigateToPosition_pgn (E : RulesEngine) (gs : GameState) (i : Int) :
    (navigateToPosition E gs i).pgn = gs.pgn := by
  unfold navigateToPosition
  split
  · rfl
  · split <;> rfl

lemma getFenAtIndex_eq_of_history_eq (E : RulesEngine) {gs1 gs2 : GameState}
    (h : gs1.history = gs2.history) (i : Int) :
    getFenAtIndex E gs1 i = getFenAtIndex E gs2 i := by
  unfold getFenAtIndex
  rw [h]

lemma navigateToPosition_index_valid (E : RulesEngine) (gs : GameState) {i : Int}
    (h0 : -1 ≤ i) (h1 : i ≤ (gs.history.length : Int) - 1) :
    (navigateToPosition E gs i).currentMoveIndex = i := by
  unfold navigateToPosition
  by_cases hi : i = -1
  · rw [if_pos hi, hi]
  · rw [if_neg hi]
    obtain ⟨a, ha⟩ := listGetInt_eq_some_of_valid gs.history i (by omega) (by omega)
    rw [ha]

lemma navigateToPosition_invalid (E : RulesEngine) (gs : GameState) {i : Int}
    (h : i < -1 ∨ (gs.history.length : Int) ≤ i) : navigateToPosition E gs i = gs := by
  unfold navigateToPosition
  rw [if_neg (by omega), listGetInt_eq_none_of_out gs.history i h]

lemma replayBreak_cons (E : RulesEngine) (fen : String) (m : ChessMove) (l : List ChessMove) :
    replayBreak E fen (m :: l) =
      match E.moveFromTo fen m.fromSq m.toSq m.promotion with
      | some fen2 => replayBreak E fen2 l
      | none => fen := rfl

lemma replayAllOk_cons (E : RulesEngine) (fen : String) (m : ChessMove) (l : List ChessMove) :
    replayAllOk E fen (m :: l) =
      match E.moveFromTo fen m.fromSq m.toSq m.promotion with
      | some fen2 => replayAllOk E fen2 l
      | none => none := rfl

lemma replayBreak_append_of_allOk (E : RulesEngine) (l1 : List ChessMove) :
    ∀ (fen fen1 : String) (l2 : List ChessMove), replayAllOk E fen l1 = some fen1 →
      replayBreak E fen (l1 ++ l2) = replayBreak E fen1 l2 := by
  induction l1 with
  | nil =>
    intro fen fen1 l2 h
    simp only [replayAllOk, Option.some.injEq] at h
    rw [List.nil_append, h]
  | cons m rest ih =>
    intro fen fen1 l2 h
    rw [replayAllOk_cons] at h
    rw [List.cons_append, replayBreak_cons]
    cases hm : E.moveFromTo fen m.fromSq m.toSq m.promotion with
    | none => rw [hm] at h; cases h
    | some fen2 => rw [hm] at h; exact ih fen2 fen1 l2 h

lemma replayBreak_cons_fail (E : RulesEngine) (fen : String) (m : ChessMove)
    (l : List ChessMove) (h : E.moveFromTo fen m.fromSq m.toSq m.promotion = none) :
    replayBreak E fen (m :: l) = fen := by
  rw [replayBreak_cons, h]

lemma replayBreak_eq_of_allOk (E : RulesEngine) (l : List ChessMove) (fen fen1 : String)
    (h : replayAllOk E fen l = some fen1) : replayBreak E fen l = fen1 := by
  have := replayBreak_append_of_allOk E l fen fen1 [] h
  rw [List.append_nil] at this
  exact this

lemma foldl_applyStep_of_allOk (E : RulesEngine) (l : List ChessMove) :
    ∀ (fen fen1 : String), replayAllOk E fen l = some fen1 →
      l.foldl (applyStep E) fen = fen1 := by
  induction l with
  | nil =>
    intro fen fen1 h
    simp only [replayAllOk, Option.some.injEq] at h
    rw [List.foldl_nil, h]
  | cons m rest ih =>
    intro fen fen1 h
    rw [replayAllOk_cons] at h
    cases hm : E.moveFromTo fen m.fromSq m.toSq m.promotion with
    | none => rw [hm] at h; cases h
    | some fen2 =>
      rw [hm] at h
      rw [List.foldl_cons]
      have hstep : applyStep E fen m = fen2 := by
        unfold applyStep
        rw [hm]
      rw [hstep]
      exact ih fen2 fen1 h

lemma applyStep_fail (E : RulesEngine) (fen : String) (m : ChessMove)
    (h : E.moveFromTo fen m.fromSq m.toSq m.promotion = none) :
    applyStep E fen m = fen := by
  unfold applyStep
  rw [h]

lemma replaySkipStep_eq_applyStep (E : RulesEngine) (fen : String) (m : ChessMove)
    (hwf : wellFormedMove m) : replaySkipStep E fen m = applyStep E fen m := by
  obtain ⟨h1, h2, h3⟩ := hwf
  unfold replaySkipStep applyStep
  rw [if_pos ⟨h1, h2⟩, promotionArg_eq_self h3]

lemma replaySkip_eq_foldl_applyStep (E : RulesEngine) (fen : String) (l : List ChessMove)
    (hwf : ∀ m ∈ l, wellFormedMove m) :
    replaySkip E fen l = l.foldl (applyStep E) fen := by
  unfold replaySkip
  exact List.foldl_ext _ _ fen fun b m hm => replaySkipStep_eq_applyStep E b m (hwf m hm)

lemma replaySkip_append (E : RulesEngine) (fen : String) (l1 l2 : List ChessMove) :
    replaySkip E fen (l1 ++ l2) = replaySkip E (replaySkip E fen l1) l2 := by
  unfold replaySkip
  exact List.foldl_append _ _ _ _

lemma replaySkip_eq_of_allOk (E : RulesEngine) (l : List ChessMove) :
    ∀ (fen fen1 : String), (∀ m ∈ l, wellFormedMove m) →
      replayAllOk E fen l = some fen1 → replaySkip E fen l = fen1 := by
  induction l with
  | nil =>
    intro fen fen1 _ h
    simp only [replayAllOk, Option.some.injEq] at h
    rw [h]; rfl
  | cons m rest ih =>
    intro fen fen1 hwf h
    rw [replayAllOk_cons] at h
    cases hm : E.moveFromTo fen m.fromSq m.toSq m.promotion with
    | none => rw [hm] at h; cases h
    | some fen2 =>
      rw [hm] at h
      have hstep : replaySkipStep E fen m = fen2 := by
        rw [replaySkipStep_eq_applyStep E fen m (hwf m (List.mem_cons_self m rest))]
        unfold applyStep
        rw [hm]
      show replaySkip E (replaySkipStep E fen m) rest = fen1
      rw [hstep]
      exact ih fen2 fen1 (fun x hx => hwf x (List.mem_cons_of_mem m hx)) h

lemma replaySkip_cons_fail (E : RulesEngine) (fen : String) (m : ChessMove)
    (l : List ChessMove) (hwf : wellFormedMove m)
    (h : E.moveFromTo fen m.fromSq m.toSq m.promotion = none) :
    replaySkip E fen (m :: l) = replaySkip E fen l := by
  show replaySkip E (replaySkipStep E fen m) l = replaySkip E fen l
  rw [replaySkipStep_eq_applyStep E fen m hwf, applyStep_fail E fen m h]

/-- The two possible outcomes of `handlePrevMove`: the branch-collapse case
(active branch displayed at base index + 1) versus the ordinary decrement. -/
lemma handlePrevMove_cases (E : RulesEngine) (s : HomeState) :
    (∃ br, s.temporaryBranch = some br ∧
      s.gameState.currentMoveIndex = br.baseMoveIndex + 1 ∧
      handlePrevMove E s =
        { s with temporaryBranch := none,
                 displayFen := getFenAtIndex E s.gameState br.baseMoveIndex }) ∨
    handlePrevMove E s =
      { s with
          gameState :=
            navigateToPosition E s.gameState (max (-1) (s.gameState.currentMoveIndex - 1)),
          displayFen :=
            getFenAtIndex E
              (navigateToPosition E s.gameState (max (-1) (s.gameState.currentMoveIndex - 1)))
              (max (-1) (s.gameState.currentMoveIndex - 1)) } := by
  obtain ⟨gs, tb, df⟩ := s
  cases tb with
  | none => right; rfl
  | some br =>
    by_cases hidx : gs.currentMoveIndex = br.baseMoveIndex + 1
    · left
      exact ⟨br, rfl, hidx, by simp only [handlePrevMove]; rw [if_pos hidx]⟩
    · right
      simp only [handlePrevMove]
      rw [if_neg hidx]

/-- `handleMove` under an active branch, or from a non-tip index, leaves the
recorded game state untouched and always leaves a branch active. -/
lemma handleMove_preserves_gameState (E : RulesEngine) (s : HomeState) (m : ChessMove)
    (s2 : HomeState)
    (hcond : s.temporaryBranch ≠ none ∨
      s.gameState.currentMoveIndex < (s.gameState.history.length : Int) - 1)
    (h : handleMove E s m = some s2) :
    s2.gameState = s.gameState ∧ s2.temporaryBranch ≠ none := by
  unfold handleMove at h
  cases hm : E.moveFromTo s.displayFen m.fromSq m.toSq m.promotion with
  | none =>
    rw [hm] at h
    exact Option.noConfusion h
  | some newFen =>
    rw [hm] at h
    dsimp only at h
    cases htb : s.temporaryBranch with
    | some br =>
      rw [htb] at h
      dsimp only at h
      obtain rfl := Option.some.inj h
      exact ⟨rfl, by simp [handleTemporaryBranchChange]⟩
    | none =>
      rw [htb] at h
      dsimp only at h
      rcases hcond with hc | hc
      · exact absurd htb hc
      · rw [if_pos hc] at h
        obtain rfl := Option.some.inj h
        exact ⟨rfl, by simp [handleTemporaryBranchChange]⟩

/-- A whole sequence of `handleMove` calls, started under an active branch or
from a non-tip index, leaves the recorded game state untouched. -/
lemma handleMoves_preserves_gameState (E : RulesEngine) (mvs : List ChessMove) :
    ∀ (s s2 : HomeState),
      (s.temporaryBranch ≠ none ∨
        s.gameState.currentMoveIndex < (s.gameState.history.length : Int) - 1) →
      handleMoves E s mvs = some s2 → s2.gameState = s.gameState := by
  induction mvs with
  | nil =>
    intro s s2 _ h
    simp only [handleMoves, Option.some.injEq] at h
    rw [h]
  | cons m rest ih =>
    intro s s2 hcond h
    unfold handleMoves at h
    cases hm : handleMove E s m with
    | none => rw [hm] at h; cases h
    | some s1 =>
      rw [hm] at h
      obtain ⟨hgs, hbr⟩ := handleMove_preserves_gameState E s m s1 hcond hm
      rw [← hgs]
      exact ih s1 s2 (Or.inl hbr) h

/-- Termination measure for repeated `handlePrevMove`: twice the (clamped)
distance of the index from -1, plus one while a branch is active. -/
def prevMeasure (s : HomeState) : Nat :=
  2 * (s.gameState.currentMoveIndex + 1).toNat +
    (match s.temporaryBranch with
     | none => 0
     | some _ => 1)

lemma handlePrevMove_bounds (E : RulesEngine) (s : HomeState)
    (h0 : -1 ≤ s.gameState.currentMoveIndex)
    (h1 : s.gameState.currentMoveIndex ≤ (s.gameState.history.length : Int) - 1) :
    -1 ≤ (handlePrevMove E s).gameState.currentMoveIndex ∧
    (handlePrevMove E s).gameState.currentMoveIndex ≤
      ((handlePrevMove E s).gameState.history.length : Int) - 1 ∧
    (handlePrevMove E s).gameState.history = s.gameState.history := by
  rcases handlePrevMove_cases E s with ⟨br, _, _, hs⟩ | hs
  · rw [hs]
    exact ⟨h0, h1, rfl⟩
  · rw [hs]
    have hin : (navigateToPosition E s.gameState
        (max (-1) (s.gameState.currentMoveIndex - 1))).currentMoveIndex =
        max (-1) (s.gameState.currentMoveIndex - 1) := by
      apply navigateToPosition_index_valid
      · exact le_max_left _ _
      · rcases max_cases (-1 : Int) (s.gameState.currentMoveIndex - 1) with ⟨he, _⟩ | ⟨he, _⟩ <;>
          rw [he] <;> omega
    have hh := navigateToPosition_history E s.gameState
      (max (-1) (s.gameState.currentMoveIndex - 1))
    refine ⟨?_, ?_, hh⟩
    · rw [hin]; exact le_max_left _ _
    · rw [hin, hh]
      rcases max_cases (-1 : Int) (s.gameState.currentMoveIndex - 1) with ⟨he, _⟩ | ⟨he, _⟩ <;>
        rw [he] <;> omega

lemma handlePrevMove_measure_lt (E : RulesEngine) (s : HomeState)
    (h0 : 0 ≤ s.gameState.currentMoveIndex)
    (h1 : s.gameState.currentMoveIndex ≤ (s.gameState.history.length : Int) - 1) :
    prevMeasure (handlePrevMove E s) < prevMeasure s := by
  rcases handlePrevMove_cases E s with ⟨br, htb, _, hs⟩ | hs
  · rw [hs]
    unfold prevMeasure
    dsimp only
    rw [htb]
    dsimp only
    omega
  · rw [hs]
    unfold prevMeasure
    dsimp only
    have hin : (navigateToPosition E s.gameState
        (max (-1) (s.gameState.currentMoveIndex - 1))).currentMoveIndex =
        max (-1) (s.gameState.currentMoveIndex - 1) := by
      apply navigateToPosition_index_valid
      · exact le_max_left _ _
      · rcases max_cases (-1 : Int) (s.gameState.currentMoveIndex - 1) with ⟨he, _⟩ | ⟨he, _⟩ <;>
          rw [he] <;> omega
    rw [hin]
    have hmax : max (-1) (s.gameState.currentMoveIndex - 1) =
        s.gameState.currentMoveIndex - 1 := max_eq_right (by omega)
    rw [hmax]
    omega

lemma handlePrevMove_reaches_start (E : RulesEngine) :
    ∀ (k : Nat) (s : HomeState), prevMeasure s ≤ k →
      -1 ≤ s.gameState.currentMoveIndex →
      s.gameState.currentMoveIndex ≤ (s.gameState.history.length : Int) - 1 →
      ∃ n, ((handlePrevMove E)^[n] s).gameState.currentMoveIndex = -1 := by
  intro k
  induction k with
  | zero =>
    intro s hm h0 _
    refine ⟨0, ?_⟩
    rw [Function.iterate_zero_apply]
    unfold prevMeasure at hm
    omega
  | succ k ih =>
    intro s hm h0 h1
    by_cases hidx : s.gameState.currentMoveIndex = -1
    · exact ⟨0, by rw [Function.iterate_zero_apply]; exact hidx⟩
    · have hlt := handlePrevMove_measure_lt E s (by omega) h1
      obtain ⟨hb0, hb1, _⟩ := handlePrevMove_bounds E s h0 h1
      obtain ⟨n, hn⟩ := ih (handlePrevMove E s) (by omega) hb0 hb1
      exact ⟨n + 1, by rw [Function.iterate_succ_apply]; exact hn⟩

/-! ### Witness fixtures -/

/-- A clean three-move game state (all moves well-formed and accepted by the
toy engine). -/
def w2State : GameState :=
  { pgn := "w2", fen := "w2fen", metadata := {},
    history := [mvE2E4, mvE7E5, mvG1F3], currentMoveIndex := 2 }

/-- Component state on the five-move main line, no branch, current index 1
(a non-tip position). -/
def w3State : HomeState :=
  { gameState := { pgn := "p", fen := "f", metadata := {},
                   history := hist5, currentMoveIndex := 1 },
    temporaryBranch := none, displayFen := "dfen" }

/-- Single-move game state at index 0. -/
def w9StateA : GameState :=
  { pgn := "", fen := "", metadata := {}, history := [mvE2E4], currentMoveIndex := 0 }

/-- Three-move game state also at index 0: same index as `w9StateA`, longer
history. -/
def w9StateB : GameState :=
  { pgn := "x", fen := "y", metadata := {},
    history := [mvE2E4, mvE7E5, mvG1F3], currentMoveIndex := 0 }

/-- Single-move game state at index 0 with the same history length as
`w9StateA` but different pgn, fen, metadata and moves. -/
def w9StateC : GameState :=
  { pgn := "zz", fen := "qq", metadata := { event := some "E" },
    history := [mvE7E5], currentMoveIndex := 0 }

/-- Component state with no branch at index 2 of the clean three-move line,
displaying the main-line reconstruction there. -/
def w8State : HomeState :=
  { gameState := w2State, temporaryBranch := none,
    displayFen := getFenAtIndex cexEngine w2State 2 }

/-! ### Claims -/

/-- Claim C10: for every game state and every index outside the valid range
[-1, len-1], `navigateToPosition` returns the input state unchanged — same
FEN, same current index, same history. -/
theorem C10_invalid_index_rejected (E : RulesEngine) (gameState : GameState) (i : Int)
    (h : i < -1 ∨ (gameState.history.length : Int) ≤ i) :
    navigateToPosition E gameState i = gameState :=
  navigateToPosition_invalid E gameState h

/-- Witness for C10 at the concrete out-of-range index 7 on a two-move
history. -/
theorem C10_witness :
    ((7 : Int) < -1 ∨ (cexState.history.length : Int) ≤ 7) ∧
    navigateToPosition cexEngine cexState 7 = cexState :=
  ⟨by decide, C10_invalid_index_rejected cexEngine cexState 7 (by decide)⟩

/-- Claim C2 counterexample: the claim covers both cited reconstructors, but
`navigateToPosition` at index -1 returns the FEN of a `Chess` instance that
just ran `loadPgn` on the stored (non-empty) PGN — the end-of-game
position — which differs from the standard initial position FEN that the
claim requires. -/
theorem C2_counterexample :
    (navigateToPosition cexEngine w2State (-1)).fen = "pgnEnd:w2" ∧
    "pgnEnd:w2" ≠ "rnbqkbnr/pppppppp/8/8/8/8/PPPPPPPP/RNBQKBNR w KQkq - 0 1" :=
  ⟨rfl, by decide⟩

/-- Claim C2 (amended): `getFenAtIndex` behaves as the claim states —
index -1 gives exactly the standard initial position FEN, and an index `i`
in [0, len-1] gives the fold of moves 0..i applied by (origin, destination,
promotion), the spec-modelled `computePosition` — under the well-formedness
the claim presupposes (the coordinate fields it addresses the moves by are
present).  `navigateToPosition`, however, at index -1 returns the FEN of
the engine after loading the stored PGN (the end-of-game position, not the
initial one); for `i` in [0, len-1] it too replays moves 0..i by (origin,
destination, promotion) and agrees with `computePosition` whenever every
replayed move applies (on a failure it aborts instead of skipping — claim
C1). -/
theorem C2_amended_reconstructors (E : RulesEngine) (state : GameState) (i : Int)
    (fenI : String)
    (h0 : 0 ≤ i) (h1 : i ≤ (state.history.length : Int) - 1)
    (hwf : ∀ m ∈ state.history, wellFormedMove m)
    (hall : replayAllOk E startingFen (state.history.take (i.toNat + 1)) = some fenI) :
    (getFenAtIndex E state (-1) =
      "rnbqkbnr/pppppppp/8/8/8/8/PPPPPPPP/RNBQKBNR w KQkq - 0 1" ∧
     getFenAtIndex E state i = computePosition E state.history i) ∧
    ((navigateToPosition E state (-1)).fen = E.loadPgnFen state.pgn ∧
     (navigateToPosition E state i).fen = computePosition E state.history i) := by
  have hcp : computePosition E state.history i = fenI := by
    unfold computePosition
    rw [if_neg (by omega : ¬ i = -1)]
    exact foldl_applyStep_of_allOk E _ startingFen fenI hall
  refine ⟨⟨rfl, ?_⟩, rfl, ?_⟩
  · unfold getFenAtIndex computePosition
    rw [if_neg (by omega : ¬ i < 0), if_neg (by omega : ¬ i = -1)]
    dsimp only
    rw [min_eq_left h1]
    exact replaySkip_eq_foldl_applyStep E startingFen _
      fun m hm => hwf m (List.take_subset _ _ hm)
  · unfold navigateToPosition
    rw [if_neg (by omega : ¬ i = -1)]
    obtain ⟨a, ha⟩ := listGetInt_eq_some_of_valid state.history i h0 (by omega)
    rw [ha]
    dsimp only
    rw [replayBreak_eq_of_allOk E _ startingFen fenI hall, hcp]

/-- Witness for the amended C2 on the concrete three-move history at
index 1 (all replayed moves apply). -/
theorem C2_amended_witness :
    ((0 : Int) ≤ 1 ∧ (1 : Int) ≤ (w2State.history.length : Int) - 1 ∧
      (∀ m ∈ w2State.history, wellFormedMove m) ∧
      replayAllOk cexEngine startingFen (w2State.history.take 2) =
        some (startingFen ++ "/e2e4" ++ "/e7e5")) ∧
    ((getFenAtIndex cexEngine w2State (-1) =
        "rnbqkbnr/pppppppp/8/8/8/8/PPPPPPPP/RNBQKBNR w KQkq - 0 1" ∧
      getFenAtIndex cexEngine w2State 1 = computePosition cexEngine w2State.history 1) ∧
     ((navigateToPosition cexEngine w2State (-1)).fen = cexEngine.loadPgnFen w2State.pgn ∧
      (navigateToPosition cexEngine w2State 1).fen =
        computePosition cexEngine w2State.history 1)) :=
  ⟨⟨by decide, by decide, by decide, rfl⟩,
   C2_amended_reconstructors cexEngine w2State 1 (startingFen ++ "/e2e4" ++ "/e7e5")
     (by decide) (by decide) (by decide) rfl⟩

/-- Claim C9 counterexample: two game states with the same current index but
different history lengths get different cursor strings (the string ends in
the total move count, which depends on the history length), so the status
string is not a function of the current index alone. -/
theorem C9_counterexample :
    w9StateA.currentMoveIndex = w9StateB.currentMoveIndex ∧
    getCurrentMoveDisplay w9StateA ≠ getCurrentMoveDisplay w9StateB :=
  ⟨rfl, by decide⟩

/-- Claim C9 (amended): the cursor status string is a function of the current
index and the history length alone — the full-move number and side-to-move
derive from the index, the trailing total-move count from the history
length; every other field (pgn, fen, metadata, the moves themselves) is
irrelevant. -/
theorem C9_amended_cursor_display (s1 s2 : GameState)
    (hidx : s1.currentMoveIndex = s2.currentMoveIndex)
    (hlen : s1.history.length = s2.history.length) :
    getCurrentMoveDisplay s1 = getCurrentMoveDisplay s2 := by
  unfold getCurrentMoveDisplay
  rw [hidx, hlen]

/-- Witness for the amended C9: same index and history length, every other
field different. -/
theorem C9_amended_witness :
    (w9StateA.currentMoveIndex = w9StateC.currentMoveIndex ∧
      w9StateA.history.length = w9StateC.history.length) ∧
    getCurrentMoveDisplay w9StateA = getCurrentMoveDisplay w9StateC :=
  ⟨⟨rfl, rfl⟩, C9_amended_cursor_display w9StateA w9StateC rfl rfl⟩

/-- Claim C5 counterexample: with an active branch of base index 2 and
current index 3 (= base + 1), `handlePrevMove` clears the branch but leaves
the current index at 3 — it does not set it to the base index 2 as the claim
states — and once the settling effect runs, the displayed FEN is not the
main-line reconstruction at the base index either (it is the one at
base + 1). -/
theorem C5_counterexample :
    c5State.temporaryBranch = some branchAt2 ∧
    c5State.gameState.currentMoveIndex = branchAt2.baseMoveIndex + 1 ∧
    (handlePrevMove cexEngine c5State).temporaryBranch = none ∧
    (handlePrevMove cexEngine c5State).gameState.currentMoveIndex ≠
      branchAt2.baseMoveIndex ∧
    (settleDisplayFen cexEngine (handlePrevMove cexEngine c5State)).displayFen ≠
      getFenAtIndex cexEngine c5State.gameState branchAt2.baseMoveIndex :=
  ⟨rfl, rfl, rfl, by decide, by decide⟩

/-- Claim C5 (amended): invoking Previous while an active branch's base
index + 1 equals the current index clears the branch but leaves the recorded
game state — in particular the current index, which stays at base + 1 —
unchanged.  The handler transiently assigns the main-line reconstruction at
the base index to the display, but the settling effect overwrites it with
the reconstruction at the unchanged current index, so the settled displayed
FEN is the main-line position at base + 1, not at the base index. -/
theorem C5_amended_branch_collapse (E : RulesEngine) (s : HomeState)
    (br : TemporaryBranch) (hbr : s.temporaryBranch = some br)
    (hidx : s.gameState.currentMoveIndex = br.baseMoveIndex + 1) :
    (handlePrevMove E s).temporaryBranch = none ∧
    (handlePrevMove E s).gameState = s.gameState ∧
    (handlePrevMove E s).displayFen = getFenAtIndex E s.gameState br.baseMoveIndex ∧
    (settleDisplayFen E (handlePrevMove E s)).displayFen =
      getFenAtIndex E s.gameState (br.baseMoveIndex + 1) := by
  obtain ⟨gs, tb, df⟩ := s
  dsimp only at hbr hidx ⊢
  subst hbr
  unfold handlePrevMove
  dsimp only
  rw [if_pos hidx]
  refine ⟨rfl, rfl, rfl, ?_⟩
  unfold settleDisplayFen
  dsimp only
  rw [hidx]

/-- Witness for the amended C5 at the concrete branch state. -/
theorem C5_amended_witness :
    (c5State.temporaryBranch = some branchAt2 ∧
      c5State.gameState.currentMoveIndex = branchAt2.baseMoveIndex + 1) ∧
    ((handlePrevMove cexEngine c5State).temporaryBranch = none ∧
     (handlePrevMove cexEngine c5State).gameState = c5State.gameState ∧
     (handlePrevMove cexEngine c5State).displayFen =
       getFenAtIndex cexEngine c5State.gameState branchAt2.baseMoveIndex ∧
     (settleDisplayFen cexEngine (handlePrevMove cexEngine c5State)).displayFen =
       getFenAtIndex cexEngine c5State.gameState (branchAt2.baseMoveIndex + 1)) :=
  ⟨⟨rfl, rfl⟩, C5_amended_branch_collapse cexEngine c5State branchAt2 rfl rfl⟩

/-- Claim C3: with no active branch and a current index strictly below the
main-line tip, playing a move creates a temporary branch whose base index is
the current index and whose moves are exactly the played move, and the
displayed FEN becomes the branch's cached FEN (the position after that
move); everything else, in particular the recorded game state, is
unchanged. -/
theorem C3_branch_creation (E : RulesEngine) (s : HomeState) (move : ChessMove)
    (newFen : String) (hbr : s.temporaryBranch = none)
    (hidx : s.gameState.currentMoveIndex < (s.gameState.history.length : Int) - 1)
    (happ : E.moveFromTo s.displayFen move.fromSq move.toSq move.promotion = some newFen) :
    handleMove E s move =
      some { s with
               temporaryBranch :=
                 some { baseMoveIndex := s.gameState.currentMoveIndex
                        moves := [move]
                        fen := newFen }
               displayFen := newFen } := by
  unfold handleMove
  rw [happ]
  dsimp only
  rw [hbr]
  dsimp only
  rw [if_pos hidx]
  rfl

/-- Witness for C3: playing Nf3 from index 1 of a five-move main line. -/
theorem C3_witness :
    (w3State.temporaryBranch = none ∧
      w3State.gameState.currentMoveIndex < (w3State.gameState.history.length : Int) - 1 ∧
      cexEngine.moveFromTo w3State.displayFen mvG1F3.fromSq mvG1F3.toSq mvG1F3.promotion =
        some "dfen/g1f3") ∧
    handleMove cexEngine w3State mvG1F3 =
      some { w3State with
               temporaryBranch :=
                 some { baseMoveIndex := w3State.gameState.currentMoveIndex
                        moves := [mvG1F3]
                        fen := "dfen/g1f3" }
               displayFen := "dfen/g1f3" } :=
  ⟨⟨rfl, by decide, rfl⟩,
   C3_branch_creation cexEngine w3State mvG1F3 "dfen/g1f3" rfl (by decide) rfl⟩

/-- Claim C4: a sequence of moves played while a branch is active, or started
from a non-tip position, never modifies the recorded main line — the
history (hence its length and every move in it) and the stored PGN are
unchanged. -/
theorem C4_mainline_frame (E : RulesEngine) (s : HomeState) (mvs : List ChessMove)
    (s2 : HomeState)
    (hcond : s.temporaryBranch ≠ none ∨
      s.gameState.currentMoveIndex < (s.gameState.history.length : Int) - 1)
    (hrun : handleMoves E s mvs = some s2) :
    s2.gameState.history = s.gameState.history ∧ s2.gameState.pgn = s.gameState.pgn := by
  rw [handleMoves_preserves_gameState E mvs s s2 hcond hrun]
  exact ⟨rfl, rfl⟩

/-- The concrete state after playing two exploratory moves from index 1 of
the five-move line: a two-move branch, main line untouched. -/
def w4Result : HomeState :=
  { gameState := w3State.gameState,
    temporaryBranch :=
      some { baseMoveIndex := 1, moves := [mvE7E5, mvD7D5], fen := "dfen/e7e5/d7d5" },
    displayFen := "dfen/e7e5/d7d5" }

/-- Witness for C4: two moves played from the non-tip index 1. -/
theorem C4_witness :
    (w3State.temporaryBranch ≠ none ∨
      w3State.gameState.currentMoveIndex < (w3State.gameState.history.length : Int) - 1) ∧
    handleMoves cexEngine w3State [mvE7E5, mvD7D5] = some w4Result ∧
    (w4Result.gameState.history = w3State.gameState.history ∧
     w4Result.gameState.pgn = w3State.gameState.pgn) :=
  ⟨Or.inr (by decide), rfl,
   C4_mainline_frame cexEngine w3State [mvE7E5, mvD7D5] w4Result (Or.inr (by decide)) rfl⟩

/-- Claim C1 counterexample: on a stored history whose first move the engine
rejects and whose second move it accepts, `navigateToPosition` (one of the
two position reconstructors the claim covers) returns the bare starting
position: it aborted the replay at the failing move instead of skipping it
and applying the remaining move, as `getFenAtIndex` does. -/
theorem C1_counterexample :
    (navigateToPosition cexEngine cexState 1).fen = startingFen ∧
    getFenAtIndex cexEngine cexState 1 = startingFen ++ "/e2e4" ∧
    startingFen ≠ startingFen ++ "/e2e4" :=
  ⟨rfl, rfl, by decide⟩

/-- Claim C1 (amended): when a stored move fails to apply during
reconstruction — all moves before it succeeding — `getFenAtIndex` skips
only that move and continues replaying the remaining moves from the position
reached so far, while `navigateToPosition` stops the replay there (breaks
out of the loop) and returns the position reached by the moves before the
failing one, dropping the rest; neither reconstructor errors. -/
theorem C1_amended_replay_failure (E : RulesEngine) (gs : GameState)
    (pre suf : List ChessMove) (m : ChessMove) (fenPre : String)
    (hhist : gs.history = pre ++ m :: suf)
    (hpre : replayAllOk E startingFen pre = some fenPre)
    (hfail : E.moveFromTo fenPre m.fromSq m.toSq m.promotion = none)
    (hwf : ∀ x ∈ gs.history, wellFormedMove x) :
    (navigateToPosition E gs ((gs.history.length : Int) - 1)).fen = fenPre ∧
    getFenAtIndex E gs ((gs.history.length : Int) - 1) = replaySkip E fenPre suf := by
  have hlen : gs.history.length = pre.length + suf.length + 1 := by
    rw [hhist]
    simp [List.length_append]
    omega
  have h0 : (0 : Int) ≤ (gs.history.length : Int) - 1 := by omega
  have htake :
      gs.history.take (((gs.history.length : Int) - 1).toNat + 1) = pre ++ m :: suf := by
    have ht : ((gs.history.length : Int) - 1).toNat + 1 = gs.history.length := by omega
    rw [ht, List.take_length]
    exact hhist
  constructor
  · unfold navigateToPosition
    rw [if_neg (by omega : ¬ (gs.history.length : Int) - 1 = -1)]
    obtain ⟨a, ha⟩ := listGetInt_eq_some_of_valid gs.history _ h0 (by omega)
    rw [ha]
    dsimp only
    rw [htake, replayBreak_append_of_allOk E pre startingFen fenPre (m :: suf) hpre]
    exact replayBreak_cons_fail E fenPre m suf hfail
  · unfold getFenAtIndex
    rw [if_neg (by omega : ¬ (gs.history.length : Int) - 1 < 0)]
    dsimp only
    rw [min_self, htake]
    rw [hhist] at hwf
    have hwfpre : ∀ x ∈ pre, wellFormedMove x :=
      fun x hx => hwf x (List.mem_append_left _ hx)
    have hwfm : wellFormedMove m := hwf m (List.mem_append_right _ (List.mem_cons_self _ _))
    rw [replaySkip_append E startingFen pre (m :: suf),
        replaySkip_eq_of_allOk E pre startingFen fenPre hwfpre hpre]
    exact replaySkip_cons_fail E fenPre m suf hwfm hfail

/-- Witness for the amended C1: the two-move history whose first move the
toy engine rejects. -/
theorem C1_amended_witness :
    (cexState.history = [] ++ mvBad :: [mvE2E4] ∧
      replayAllOk cexEngine startingFen [] = some startingFen ∧
      cexEngine.moveFromTo startingFen mvBad.fromSq mvBad.toSq mvBad.promotion = none ∧
      ∀ x ∈ cexState.history, wellFormedMove x) ∧
    ((navigateToPosition cexEngine cexState ((cexState.history.length : Int) - 1)).fen =
        startingFen ∧
     getFenAtIndex cexEngine cexState ((cexState.history.length : Int) - 1) =
        replaySkip cexEngine startingFen [mvE2E4]) :=
  ⟨⟨rfl, rfl, rfl, by decide⟩,
   C1_amended_replay_failure cexEngine cexState [] [mvE2E4] mvBad startingFen
     rfl rfl rfl (by decide)⟩

/-- Claim C6 counterexample: with an active branch (base 2) on the five-move
line, clicking index 1 ≤ base keeps the branch active, so the settling
effect overwrites the handler's transient main-line FEN with the branch's
cached FEN — the settled display is the branch position, not the main-line
reconstruction at index 1 as the claim states. -/
theorem C6_counterexample :
    c5State.temporaryBranch = some branchAt2 ∧
    (1 : Int) ≤ branchAt2.baseMoveIndex ∧
    (settleDisplayFen cexEngine (handleMoveClick cexEngine c5State 1)).displayFen =
      branchAt2.fen ∧
    branchAt2.fen ≠ getFenAtIndex cexEngine c5State.gameState 1 :=
  ⟨rfl, by decide, rfl, by decide⟩

/-- Claim C6 (amended): with an active branch of base index b (a valid
branch base, b ≥ -1), clicking a main-line move index i with b < i < len
clears the branch, sets the current index to i, and displays the main-line
reconstruction at i (also once the settling effect runs, since the branch is
gone).  Clicking an index i ≤ b navigates the main line to i while keeping
the branch active: the handler transiently displays the main-line
reconstruction at i, but the settling effect overwrites the display with the
branch's cached FEN. -/
theorem C6_amended_jump_transitions (E : RulesEngine) (s : HomeState)
    (br : TemporaryBranch)
    (hbr : s.temporaryBranch = some br) (hb : -1 ≤ br.baseMoveIndex) :
    (∀ i : Int, br.baseMoveIndex < i → i < (s.gameState.history.length : Int) →
      (handleMoveClick E s i).temporaryBranch = none ∧
      (handleMoveClick E s i).gameState.currentMoveIndex = i ∧
      (handleMoveClick E s i).displayFen = getFenAtIndex E s.gameState i ∧
      (settleDisplayFen E (handleMoveClick E s i)).displayFen =
        getFenAtIndex E s.gameState i) ∧
    (∀ i : Int, i ≤ br.baseMoveIndex →
      (handleMoveClick E s i).temporaryBranch = some br ∧
      (handleMoveClick E s i).displayFen = getFenAtIndex E s.gameState i ∧
      (settleDisplayFen E (handleMoveClick E s i)).displayFen = br.fen) := by
  obtain ⟨gs, tb, df⟩ := s
  dsimp only at hbr ⊢
  subst hbr
  constructor
  · intro i hgt hlt
    unfold handleMoveClick
    dsimp only
    rw [if_neg (by omega : ¬ i ≤ br.baseMoveIndex), if_pos ⟨hgt, hlt⟩]
    have hidx : (navigateToPosition E gs i).currentMoveIndex = i :=
      navigateToPosition_index_valid E gs (by omega) (by omega)
    have hfen : getFenAtIndex E (navigateToPosition E gs i) i = getFenAtIndex E gs i :=
      getFenAtIndex_eq_of_history_eq E (navigateToPosition_history E gs i) i
    refine ⟨rfl, hidx, hfen, ?_⟩
    unfold settleDisplayFen
    dsimp only
    rw [hidx, hfen]
  · intro i hle
    unfold handleMoveClick
    dsimp only
    rw [if_pos hle]
    exact ⟨rfl,
      getFenAtIndex_eq_of_history_eq E (navigateToPosition_history E gs i) i, rfl⟩

/-- Witness for the amended C6 on the concrete branch state (base 2,
five-move line): clicking index 4 beyond the branch, and clicking index 1
before it. -/
theorem C6_amended_witness :
    (c5State.temporaryBranch = some branchAt2 ∧ -1 ≤ branchAt2.baseMoveIndex ∧
      branchAt2.baseMoveIndex < 4 ∧ (4 : Int) < (c5State.gameState.history.length : Int) ∧
      (1 : Int) ≤ branchAt2.baseMoveIndex) ∧
    ((handleMoveClick cexEngine c5State 4).temporaryBranch = none ∧
     (handleMoveClick cexEngine c5State 4).gameState.currentMoveIndex = 4 ∧
     (handleMoveClick cexEngine c5State 4).displayFen =
        getFenAtIndex cexEngine c5State.gameState 4 ∧
     (settleDisplayFen cexEngine (handleMoveClick cexEngine c5State 4)).displayFen =
        getFenAtIndex cexEngine c5State.gameState 4) ∧
    ((handleMoveClick cexEngine c5State 1).temporaryBranch = some branchAt2 ∧
     (handleMoveClick cexEngine c5State 1).displayFen =
        getFenAtIndex cexEngine c5State.gameState 1 ∧
     (settleDisplayFen cexEngine (handleMoveClick cexEngine c5State 1)).displayFen =
        branchAt2.fen) :=
  ⟨⟨rfl, by decide, by decide, by decide, by decide⟩,
   (C6_amended_jump_transitions cexEngine c5State branchAt2 rfl (by decide)).1 4
      (by decide) (by decide),
   (C6_amended_jump_transitions cexEngine c5State branchAt2 rfl (by decide)).2 1
      (by decide)⟩

/-- Claim C7: navigation is safe at the boundaries for every state whose
index lies in the valid range [-1, len-1]: Previous never produces an index
below -1; repeatedly pressing Previous reaches index -1 after finitely many
steps, and -1 is absorbing for Previous; Next at the main-line tip leaves
the index unchanged.  Both handlers are total functions of the state. -/
theorem C7_navigation_bounds (E : RulesEngine) (s : HomeState)
    (h0 : -1 ≤ s.gameState.currentMoveIndex)
    (h1 : s.gameState.currentMoveIndex ≤ (s.gameState.history.length : Int) - 1) :
    -1 ≤ (handlePrevMove E s).gameState.currentMoveIndex ∧
    (∃ n, ((handlePrevMove E)^[n] s).gameState.currentMoveIndex = -1) ∧
    (s.gameState.currentMoveIndex = -1 →
      (handlePrevMove E s).gameState.currentMoveIndex = -1) ∧
    (s.gameState.currentMoveIndex = (s.gameState.history.length : Int) - 1 →
      (handleNextMove E s).gameState.currentMoveIndex = s.gameState.currentMoveIndex) := by
  refine ⟨(handlePrevMove_bounds E s h0 h1).1,
          handlePrevMove_reaches_start E (prevMeasure s) s le_rfl h0 h1, ?_, ?_⟩
  · intro hm1
    rcases handlePrevMove_cases E s with ⟨br, _, _, hs⟩ | hs
    · rw [hs]
      exact hm1
    · rw [hs]
      have hmax : max (-1) (s.gameState.currentMoveIndex - 1) = -1 :=
        max_eq_left (by omega)
      rw [hmax]
      exact navigateToPosition_index_valid E s.gameState (by omega) (by omega)
  · intro htip
    unfold handleNextMove
    dsimp only
    have hmin : min ((s.gameState.history.length : Int) - 1)
        (s.gameState.currentMoveIndex + 1) = s.gameState.currentMoveIndex := by omega
    rw [hmin]
    exact navigateToPosition_index_valid E s.gameState h0 h1

/-- Witness for C7 at a concrete branch state with index 3 on a five-move
line. -/
theorem C7_witness :
    (-1 ≤ c5State.gameState.currentMoveIndex ∧
      c5State.gameState.currentMoveIndex ≤ (c5State.gameState.history.length : Int) - 1) ∧
    (-1 ≤ (handlePrevMove cexEngine c5State).gameState.currentMoveIndex ∧
     (∃ n, ((handlePrevMove cexEngine)^[n] c5State).gameState.currentMoveIndex = -1) ∧
     (c5State.gameState.currentMoveIndex = -1 →
       (handlePrevMove cexEngine c5State).gameState.currentMoveIndex = -1) ∧
     (c5State.gameState.currentMoveIndex = (c5State.gameState.history.length : Int) - 1 →
       (handleNextMove cexEngine c5State).gameState.currentMoveIndex =
         c5State.gameState.currentMoveIndex)) :=
  ⟨⟨by decide, by decide⟩,
   C7_navigation_bounds cexEngine c5State (by decide) (by decide)⟩

/-- Claim C8: with no active branch and a current index in [0, len-1], whose
displayed FEN is the main-line reconstruction at that index (the invariant
the component maintains), Previous followed by Next restores both the
current index and the displayed FEN. -/
theorem C8_prev_next_roundtrip (E : RulesEngine) (s : HomeState)
    (hbr : s.temporaryBranch = none)
    (h0 : 0 ≤ s.gameState.currentMoveIndex)
    (h1 : s.gameState.currentMoveIndex ≤ (s.gameState.history.length : Int) - 1)
    (hfen : s.displayFen = getFenAtIndex E s.gameState s.gameState.currentMoveIndex) :
    (handleNextMove E (handlePrevMove E s)).gameState.currentMoveIndex =
      s.gameState.currentMoveIndex ∧
    (handleNextMove E (handlePrevMove E s)).displayFen = s.displayFen := by
  obtain ⟨gs, tb, df⟩ := s
  dsimp only at hbr h0 h1 hfen ⊢
  subst hbr
  unfold handlePrevMove
  dsimp only
  unfold handleNextMove
  dsimp only
  have hh1 : (navigateToPosition E gs (max (-1) (gs.currentMoveIndex - 1))).history =
      gs.history := navigateToPosition_history E gs _
  have hi1 : (navigateToPosition E gs (max (-1) (gs.currentMoveIndex - 1))).currentMoveIndex =
      max (-1) (gs.currentMoveIndex - 1) :=
    navigateToPosition_index_valid E gs (le_max_left _ _) (by omega)
  rw [hh1, hi1]
  have hmin : min ((gs.history.length : Int) - 1)
      (max (-1) (gs.currentMoveIndex - 1) + 1) = gs.currentMoveIndex := by omega
  rw [hmin]
  have hh2 : (navigateToPosition E (navigateToPosition E gs
      (max (-1) (gs.currentMoveIndex - 1))) gs.currentMoveIndex).history = gs.history := by
    rw [navigateToPosition_history, hh1]
  constructor
  · exact navigateToPosition_index_valid E _ (by omega) (by rw [hh1]; omega)
  · rw [getFenAtIndex_eq_of_history_eq E hh2 gs.currentMoveIndex]
    exact hfen.symm

/-- Witness for C8: index 2 on the clean three-move line, display FEN equal
to the reconstruction there. -/
theorem C8_witness :
    (w8State.temporaryBranch = none ∧ 0 ≤ w8State.gameState.currentMoveIndex ∧
      w8State.gameState.currentMoveIndex ≤ (w8State.gameState.history.length : Int) - 1 ∧
      w8State.displayFen =
        getFenAtIndex cexEngine w8State.gameState w8State.gameState.currentMoveIndex) ∧
    ((handleNextMove cexEngine (handlePrevMove cexEngine w8State)).gameState.currentMoveIndex =
        w8State.gameState.currentMoveIndex ∧
     (handleNextMove cexEngine (handlePrevMove cexEngine w8State)).displayFen =
        w8State.displayFen) :=
  ⟨⟨rfl, by decide, by decide, rfl⟩,
   C8_prev_next_roundtrip cexEngine w8State rfl (by decide) (by decide) rfl⟩

end ChessAI
